import Mathlib

/-!
Verification of the utility classes of the nevar-v6 repository
(RandomUtils, ValidationUtils, PermissionUtils and the bootstrap script)
against a shallow embedding in Lean 4.

Modelling conventions used throughout this file:
- Every call to the JavaScript source of randomness is modelled by an
  explicit stream of draws, a function from a call counter to a rational
  number r with 0 <= r < 1 (the contract of the standard random source).
- JavaScript values that may be undefined are modelled with Option.
- Network outcomes (a fetch that may reject, a HEAD request that may
  fail) are modelled as explicit Option / Except inputs to the function.
-/

/- The Batteries rational arithmetic operations are marked irreducible,
which blocks evaluation of concrete instances by the decide tactic; the
concrete witnesses below need them to reduce. -/
attribute [local semireducible] Rat.mul Rat.add Rat.sub Rat.inv

/-! ## RandomUtils (src/unnamed/part_000) -/

/-- The fixed character set of randomString:
62 characters, A-Z then a-z then 0-9 (copied from the source). -/
def characters : String := "ABCDEFGHIJKLMNOPQRSTUVWXYZabcdefghijklmnopqrstuvwxyz0123456789"

/-- Embedding of RandomUtils.randomString.  The source builds an array of
the requested length where each element is
characters[floor(random() * characters.length)] and joins it.  The i-th
call of the random source is the draw at index i.  The out-of-range
default of getD is never used when every draw lies in [0, 1). -/
def randomString (length : Nat) (draws : Nat → ℚ) : String :=
  String.mk ((List.range length).map
    (fun i => characters.data.getD (Int.toNat ⌊draws i * (characters.data.length : ℚ)⌋) 'A'))

/-- One comparator call of shuffleArray returns random() - 0.5; only its
sign matters to the sort.  We record the outcome of the k-th comparator
call as a Boolean: d k = true models a non-positive comparator value
(keep the inserted element in front), d k = false a positive one.
ECMAScript leaves the order produced by an inconsistent comparator
implementation-defined but always sorts a copy of the elements and
writes the permutation back in place; we instantiate the
implementation-defined order with a comparison-based insertion sort that
consumes one outcome per comparator call. -/
def insertRand (d : Nat → Bool) : α → List α → Nat → List α × Nat
  | a, [], k => ([a], k)
  | a, b :: l, k =>
    if d k then (a :: b :: l, k + 1)
    else
      let p := insertRand d a l (k + 1)
      (b :: p.1, p.2)

/-- Insertion sort driven by the stream of comparator outcomes,
threading the comparator call counter. -/
def sortRand (d : Nat → Bool) : List α → Nat → List α × Nat
  | [], k => ([], k)
  | a :: l, k =>
    let p := sortRand d l k
    insertRand d a p.1 p.2

/-- Embedding of RandomUtils.shuffleArray: array.sort with the random
comparator, started with comparator call counter 0. -/
def shuffleArray (d : Nat → Bool) (array : List α) : List α :=
  (sortRand d array 0).1

/-- Effect of a shuffleArray call on the caller.  Array.prototype.sort
sorts the receiver in place and returns the receiver itself, so the call
yields a pair (returned array, contents of the caller's variable after
the call) and both components are the sorted contents. -/
def shuffleArrayCall (d : Nat → Bool) (array : List α) : List α × List α :=
  let r := shuffleArray d array
  (r, r)

/-- Hex digit character used by Number.prototype.toString(16):
0-9 then lowercase a-f. -/
def toHexChar (n : Nat) : Char :=
  if n < 10 then Char.ofNat (48 + n) else Char.ofNat (87 + n)

/-- Base-16 digit expansion, most significant digit first, driven by
explicit fuel so that concrete instances evaluate by kernel reduction;
any fuel above the argument is enough, because the argument shrinks by
a factor of 16 in each step. -/
def toHexGo : Nat → Nat → List Char
  | 0, _ => []
  | fuel + 1, n =>
    if n < 16 then [toHexChar n]
    else toHexGo fuel (n / 16) ++ [toHexChar (n % 16)]

/-- Embedding of Number.prototype.toString(16) on a non-negative
integer: most significant digit first, lowercase, and "0" for 0. -/
def toHex (n : Nat) : List Char :=
  toHexGo (n + 1) n

/-- Embedding of RandomUtils.randomColor.  The source computes
"#" + floor(random() * 16777215).toString(16) and retries (a recursive
call, drawing again) until the string has length 7.  The recursion is
modelled with explicit fuel; k is the index of the next draw. -/
def randomColorFuel (draws : Nat → ℚ) : Nat → Nat → Option String
  | 0, _ => none
  | fuel + 1, k =>
    let v : Nat := Int.toNat ⌊draws k * 16777215⌋
    let s : String := "#" ++ String.mk (toHex v)
    if s.length = 7 then some s else randomColorFuel draws fuel (k + 1)

/-- Embedding of RandomUtils.randomNumber: floor(r * (max - min + 1) + min)
where r is the draw of the single random() call. -/
def randomNumber (min max : ℤ) (r : ℚ) : ℤ :=
  ⌊r * ((max : ℚ) - (min : ℚ) + 1) + (min : ℚ)⌋

/-! ## ValidationUtils (src/unnamed/part_001) -/

/-- A user object of the client library: the embedding only needs the
username field (resolveUser compares usernames). -/
structure JsUser where
  username : String
deriving DecidableEq

/-- The client state visible to ValidationUtils.resolveUser: the outcome
of client.users.fetch for each id (none models a rejected fetch, whose
rejection the source catches into undefined) and the user cache as a
list (the filter / find methods of the cache traverse it in order). -/
structure ClientState where
  fetch : String → Option JsUser
  cache : List JsUser

/-- Boolean test that a list starts with the given list (helper for the
embedding of String.prototype.includes). -/
def jsStartsWithList : List Char → List Char → Bool
  | [], _ => true
  | _ :: _, [] => false
  | a :: s, b :: t => a == b && jsStartsWithList s t

/-- Embedding of String.prototype.includes on character lists: the
needle occurs as a contiguous subsequence. -/
def jsIncludes (needle : List Char) : List Char → Bool
  | [] => jsStartsWithList needle []
  | c :: t => jsStartsWithList needle (c :: t) || jsIncludes needle t

/-- Lowercase conversion of a single character as performed by
String.prototype.toLowerCase, modelled on the ASCII range. -/
def jsToLowerChar (c : Char) : Char :=
  if 'A' ≤ c && c ≤ 'Z' then Char.ofNat (c.toNat + 32) else c

/-- Embedding of String.prototype.toLowerCase on character lists. -/
def jsToLower (l : List Char) : List Char :=
  l.map jsToLowerChar

/-- Skip the optional prefix of the user mention pattern
(an optional less-than sign, then an optional at sign, then an optional
exclamation mark, each greedy and in this order). -/
def skipMentionPrefix (s : List Char) : List Char :=
  let s1 := match s with
    | '<' :: t => t
    | _ => s
  let s2 := match s1 with
    | '@' :: t => t
    | _ => s1
  match s2 with
  | '!' :: t => t
  | _ => s2

/-- Match the user mention regular expression at one position: after the
optional prefix characters there must be 17 to 20 decimal digits (the
greedy quantifier captures at most 20); the trailing optional
greater-than sign always matches and never causes backtracking, and a
failure inside the digit quantifier cannot be repaired by giving back an
optional prefix character, because a digit can never stand at the
position of such a character. -/
def matchMentionAt (s : List Char) : Option (List Char) :=
  let rest := skipMentionPrefix s
  let digits := rest.takeWhile Char.isDigit
  if digits.length ≥ 17 then some (digits.take 20) else none

/-- Embedding of RegExp.prototype.exec for the user mention pattern:
scan for the leftmost position with a match and return the captured
digit group. -/
def extractMention : List Char → Option (List Char)
  | [] => none
  | c :: t =>
    match matchMentionAt (c :: t) with
    | some d => some d
    | none => extractMention t

/-- The cache search part of resolveUser: filter the cache for an exact
username match and return the single hit if there is exactly one;
otherwise, unless an exact match was requested, return the first cache
entry whose username equals the query or contains it
case-insensitively; otherwise undefined. -/
def cacheSearch (st : ClientState) (query : String) (exact : Bool) : Option JsUser :=
  let matchingUsernames := st.cache.filter (fun u => u.username == query)
  if matchingUsernames.length = 1 then matchingUsernames.head?
  else if !exact then
    st.cache.find? (fun x =>
      x.username == query || jsIncludes (jsToLower query.data) (jsToLower x.username.data))
  else none

/-- Embedding of ValidationUtils.resolveUser.  An empty query returns
undefined at once; a query containing a user mention first fetches that
user by id (a rejected fetch is caught and treated as undefined); if no
fetched user was obtained the cache search runs. -/
def resolveUser (st : ClientState) (query : String) (exact : Bool) : Option JsUser :=
  if query = "" then none
  else
    match extractMention query.data with
    | some id =>
      match st.fetch (String.mk id) with
      | some u => some u
      | none => cacheSearch st query exact
    | none => cacheSearch st query exact

/-- Embedding of ValidationUtils.urlIsImage.  The input is the outcome
of the HEAD request: error models a rejected request, ok none a response
whose content-type header is absent (reading it then throws inside the
try block and is caught), ok (some ct) a response carrying the header
value ct.  Any exception is caught and turned into false. -/
def urlIsImage (outcome : Except Unit (Option String)) : Bool :=
  match outcome with
  | .error _ => false
  | .ok none => false
  | .ok (some ct) => ct.startsWith "image/"

/-- The character class [0-9A-F] of the hex color pattern under the
case-insensitive flag. -/
def isHexDigitCI (c : Char) : Bool :=
  ('0' ≤ c && c ≤ '9') || ('A' ≤ c && c ≤ 'F') || ('a' ≤ c && c ≤ 'f')

/-- The body [0-9A-F]\x7b6\x7d$ of the hex color pattern applied after the
optional leading hash: exactly six case-insensitive hex digits up to the
end of the string. -/
def hexColorCore (l : List Char) : Bool :=
  l.length == 6 && l.all isHexDigitCI

/-- Embedding of ValidationUtils.stringIsHexColor, the anchored pattern
with an optional leading hash sign followed by exactly six
case-insensitive hexadecimal digits.  When the string starts with a hash
the engine first consumes it greedily; on failure it backtracks and
retries with the hash left to the character class, which is also kept
here (the second disjunct). -/
def stringIsHexColor (s : String) : Bool :=
  match s.data with
  | '#' :: t => hexColorCore t || hexColorCore ('#' :: t)
  | l => hexColorCore l

/-! ## PermissionUtils (src/src/utils/permission-utils.ts) -/

/-- The static permission localization table of
PermissionUtils.getPermissionName, in source order. -/
def permissionLocalizations : List (String × String) :=
  [("AddReactions", "Reaktionen hinzufügen"),
   ("Administrator", "Administrator"),
   ("AttachFiles", "Dateien anhängen"),
   ("BanMembers", "Mitglieder bannen"),
   ("ChangeNickname", "Nickname ändern"),
   ("Connect", "Verbinden"),
   ("CreateEvents", "Events erstellen"),
   ("CreateGuildExpressions", "Ausdrücke erstellen"),
   ("CreateInstantInvite", "Einladung erstellen"),
   ("CreatePrivateThreads", "Private Threads erstellen"),
   ("CreatePublicThreads", "Öffentliche Threads erstellen"),
   ("DeafenMembers", "Ein- und Ausgabe von Mitgliedern deaktivieren"),
   ("EmbedLinks", "Links einbetten"),
   ("KickMembers", "Mitglieder kicken"),
   ("ManageChannels", "Kanäle verwalten"),
   ("ManageEmojisAndStickers", "Ausdrücke verwalten"),
   ("ManageEvents", "Events verwalten"),
   ("ManageGuild", "Server verwalten"),
   ("ManageGuildExpressions", "Ausdrücke verwalten"),
   ("ManageMessages", "Nachrichten verwalten"),
   ("ManageNicknames", "Nicknames verwalten"),
   ("ManageRoles", "Rollen verwalten"),
   ("ManageThreads", "Threads verwalten"),
   ("ManageWebhooks", "Webhooks verwalten"),
   ("MentionEveryone", "Erwähne @everyone, @here und „Alle Rollen“"),
   ("ModerateMembers", "Mitglieder im Timeout"),
   ("MoveMembers", "Mitglieder verschieben"),
   ("MuteMembers", "Mitglieder stummschalten"),
   ("PrioritySpeaker", "Very Important Speaker"),
   ("ReadMessageHistory", "Nachrichtenverlauf anzeigen"),
   ("RequestToSpeak", "Redeanfrage"),
   ("SendMessages", "Nachrichten senden"),
   ("SendMessagesInThreads", "Nachrichten in Threads senden"),
   ("SendPolls", "Umfragen erstellen"),
   ("SendTTSMessages", "Text-zu-Sprache-Nachrichten senden"),
   ("SendVoiceMessages", "Sprachnachrichten senden"),
   ("Speak", "Sprechen"),
   ("Stream", "Streamen"),
   ("UseApplicationCommands", "Anwendungsbefehle verwenden"),
   ("UseEmbeddedActivities", "Aktivitäten nutzen"),
   ("UseExternalEmojis", "Externe Emojis verwenden"),
   ("UseExternalSounds", "Externe Sounds verwenden"),
   ("UseExternalStickers", "Externe Sticker verwenden"),
   ("UseSoundboard", "Soundboard verwenden"),
   ("UseVAD", "Sprachaktivierung verwenden"),
   ("ViewAuditLog", "Audit-Log einsehen"),
   ("ViewChannel", "Kanäle ansehen"),
   ("ViewCreatorMonetizationAnalytics", "Monetarisierungsanalysen einsehen"),
   ("ViewGuildInsights", "Server-Insights einsehen")]

/-- Embedding of PermissionUtils.getPermissionName: the property access
permissionLocalizations[permission], which yields the table entry for a
key of the table and undefined (none) for any other permission name.
Inherited Object.prototype members are not modelled here: no theorem in
this file evaluates getPermissionName at the name of such a member. -/
def getPermissionName (permission : String) : Option String :=
  permissionLocalizations.lookup permission

/-! ## Bootstrap script (src/unnamed/part_002) -/

/-- One observable effect of the command dispatch branch of the
bootstrap script. -/
inductive CmdEffect where
  | viewCmds : CmdEffect
  | unregisterCmds : CmdEffect
  | deleteCmd : Option String → CmdEffect
  | loadCommands : Bool → CmdEffect
  | registerCmds : CmdEffect
  | callInherited : String → CmdEffect
  | callInheritedThrows : String → CmdEffect
  | throwNotAFunction : CmdEffect
  | exitZero : CmdEffect
deriving DecidableEq

/-- The two possible courses of the bootstrap script after config
validation: run a command action and exit, or run the bot initiation
sequence. -/
inductive BootOutcome where
  | dispatch : List CmdEffect → BootOutcome
  | initiate : BootOutcome
deriving DecidableEq

/-- The own keys of the commandActions object literal, in source
order. -/
def ownActionKeys : List String := ["view", "unregister", "delete", "register"]

/-- The members every object literal inherits from Object.prototype in
Node: the seven standard built-in functions, the four Annex B accessor
management functions, and the accessor property yielding the prototype
object itself.  A property access on commandActions with any of these
names yields a truthy value (a built-in function, or for the last name
the prototype object), so the dispatch condition of the bootstrap
script accepts them. -/
def objectProtoKeys : List String :=
  ["constructor", "hasOwnProperty", "isPrototypeOf", "propertyIsEnumerable",
   "toLocaleString", "toString", "valueOf",
   "__defineGetter__", "__defineSetter__", "__lookupGetter__", "__lookupSetter__",
   "__proto__"]

/-- Effects of awaiting commandActions[key]() followed by
process.exit(0), for every key whose lookup is truthy.  The four own
keys run the corresponding command-manager action (register first
loading the commands, delete receiving process argument 4).  The
accessor member yields the prototype object, which is not callable, so
the call throws at once.  The define-accessor functions are callable
but throw a TypeError inside the call, because their getter respectively
setter argument is undefined and not callable, so the exit is not
reached.  Every other inherited function-valued member (including the
two lookup-accessor functions, which merely look up the property named
undefined and return undefined) returns normally and the script still
exits. -/
def commandActionEffects (key : String) (argv4 : Option String) : List CmdEffect :=
  if key = "view" then [.viewCmds, .exitZero]
  else if key = "unregister" then [.unregisterCmds, .exitZero]
  else if key = "delete" then [.deleteCmd argv4, .exitZero]
  else if key = "register" then [.loadCommands true, .registerCmds, .exitZero]
  else if key = "__proto__" then [.throwNotAFunction]
  else if key = "__defineGetter__" ∨ key = "__defineSetter__" then
    [.callInheritedThrows key]
  else [.callInherited key, .exitZero]

/-- Embedding of the process-argument dispatch of the bootstrap script:
if process.argv[2] is the string commands and the property access
commandActions[process.argv[3]] is truthy, the script awaits that action
and exits; otherwise it runs the initiation sequence.  A missing
argument 3 is the undefined value, which the property access coerces to
the key string of that name, matching no own or inherited member. -/
def bootDispatch (argv2 argv3 argv4 : Option String) : BootOutcome :=
  let key := argv3.getD "undefined"
  if argv2 = some "commands" ∧ (key ∈ ownActionKeys ∨ key ∈ objectProtoKeys) then
    .dispatch (commandActionEffects key argv4)
  else .initiate

/-! ## Helper lemmas -/

/-- A draw in the unit interval scaled by a positive natural bound and
floored lands strictly below the bound. -/
theorem floor_scaled_draw_lt (r : ℚ) (n : Nat) (h1 : r < 1) :
    (Int.toNat ⌊r * (n : ℚ)⌋) < n ∨ n = 0 := by
  rcases Nat.eq_zero_or_pos n with hn | hn
  · exact Or.inr hn
  · left
    have hfl : ⌊r * (n : ℚ)⌋ < (n : ℤ) := by
      apply Int.floor_lt.mpr
      push_cast
      calc r * (n : ℚ) < 1 * (n : ℚ) := by
            apply mul_lt_mul_of_pos_right h1
            exact_mod_cast hn
        _ = (n : ℚ) := one_mul _
    omega

/-- Inserting an element with an arbitrary stream of comparator
outcomes produces a permutation of the element put in front. -/
theorem insertRand_perm {α : Type} (d : Nat → Bool) (a : α) (l : List α) (k : Nat) :
    (insertRand d a l k).1.Perm (a :: l) := by
  induction l generalizing k with
  | nil => simp [insertRand]
  | cons b t ih =>
    simp only [insertRand]
    split
    · exact List.Perm.refl _
    · exact ((ih (k + 1)).cons b).trans (List.Perm.swap a b t)

/-- Comparator-driven insertion sort permutes its input for every
stream of comparator outcomes. -/
theorem sortRand_perm {α : Type} (d : Nat → Bool) (l : List α) (k : Nat) :
    (sortRand d l k).1.Perm l := by
  induction l generalizing k with
  | nil => simp [sortRand]
  | cons a t ih =>
    simp only [sortRand]
    exact (insertRand_perm d a _ _).trans (List.Perm.cons a (ih k))

/-! ## Claim theorems -/

/-- C1: For every requested length, RandomUtils.randomString returns a
string of exactly that length, and every character of the result is
drawn from the fixed 62-character set A-Z, a-z, 0-9, provided every
draw of the random source lies in the unit interval. -/
theorem randomString_length_and_charset (length : Nat) (draws : Nat → ℚ)
    (h : ∀ i, 0 ≤ draws i ∧ draws i < 1) :
    (randomString length draws).length = length ∧
      ∀ c ∈ (randomString length draws).data, c ∈ characters.data := by
  constructor
  · show ((List.range length).map _).length = length
    simp
  · intro c hc
    simp only [randomString] at hc
    rw [List.mem_map] at hc
    obtain ⟨i, _, hi⟩ := hc
    have hlt : Int.toNat ⌊draws i * (characters.data.length : ℚ)⌋ < characters.data.length := by
      rcases floor_scaled_draw_lt (draws i) characters.data.length (h i).2 with hl | hz
      · exact hl
      · simp [characters] at hz
    rw [← hi, List.getD_eq_getElem characters.data 'A' hlt]
    exact List.getElem_mem hlt

/-- C1 witness: three draws of 0 produce the three-character
string AAA, whose characters all lie in the character set. -/
theorem randomString_length_and_charset_witness :
    (randomString 3 (fun _ => 0)).length = 3 ∧
      ∀ c ∈ (randomString 3 (fun _ => 0)).data, c ∈ characters.data :=
  randomString_length_and_charset 3 (fun _ => 0)
    (fun _ => (by decide : (0 : ℚ) ≤ 0 ∧ (0 : ℚ) < 1))

/-- C8: For every input array and every stream of comparator outcomes,
the array returned by RandomUtils.shuffleArray is a permutation of the
input: same length, same elements with the same multiplicities. -/
theorem shuffleArray_perm {α : Type} (d : Nat → Bool) (array : List α) :
    (shuffleArray d array).Perm array :=
  sortRand_perm d array 0

/-- C5 counterexample: with the input [1, 2] and a comparator stream
that always reports a positive comparator value, the contents of the
caller's array after the call differ from the input, so shuffleArray
does not leave the caller's input array unchanged. -/
theorem shuffleArray_mutates_counterexample :
    (shuffleArrayCall (fun _ => false) [1, 2]).2 ≠ [1, 2] := by decide

/-- C5 amended: shuffleArray sorts the caller's array in place with the
random comparator; the returned array and the caller's array after the
call are the same (mutated) contents, a permutation of the input
elements, and the input array is in general not preserved. -/
theorem shuffleArray_inplace {α : Type} (d : Nat → Bool) (array : List α) :
    (shuffleArrayCall d array).1 = (shuffleArrayCall d array).2 ∧
      (shuffleArrayCall d array).2.Perm array :=
  ⟨rfl, sortRand_perm d array 0⟩

/-- C10: For all integers min and max with min ≤ max and every draw r
in the unit interval, RandomUtils.randomNumber returns an integer
between min and max inclusive. -/
theorem randomNumber_in_range (min max : ℤ) (r : ℚ)
    (hmm : min ≤ max) (h0 : 0 ≤ r) (h1 : r < 1) :
    min ≤ randomNumber min max r ∧ randomNumber min max r ≤ max := by
  have hk : (0 : ℚ) < (max : ℚ) - (min : ℚ) + 1 := by
    have : (min : ℚ) ≤ (max : ℚ) := by exact_mod_cast hmm
    linarith
  constructor
  · apply Int.le_floor.mpr
    nlinarith
  · have hlt : randomNumber min max r < max + 1 := by
      apply Int.floor_lt.mpr
      push_cast
      nlinarith
    omega

/-- C10 witness: with min = 2, max = 5 and the draw 1/2 the result lies
between 2 and 5. -/
theorem randomNumber_in_range_witness :
    2 ≤ randomNumber 2 5 (1/2) ∧ randomNumber 2 5 (1/2) ≤ 5 :=
  randomNumber_in_range 2 5 (1/2) (by decide) (by decide) (by decide)

/-- Lowercase hexadecimal digit: 0-9 or a-f. -/
def isLowerHexDigit (c : Char) : Bool :=
  ('0' ≤ c && c ≤ '9') || ('a' ≤ c && c ≤ 'f')

/-- The digit character of a base-16 digit is a lowercase hex digit. -/
theorem toHexChar_lowerHex (n : Nat) (h : n < 16) :
    isLowerHexDigit (toHexChar n) = true := by
  interval_cases n <;> decide

/-- Every character of the fueled base-16 expansion is a lowercase
hexadecimal digit. -/
theorem toHexGo_chars (fuel : Nat) :
    ∀ n, ∀ c ∈ toHexGo fuel n, isLowerHexDigit c = true := by
  induction fuel with
  | zero => intro n c hc; simp [toHexGo] at hc
  | succ fuel ih =>
    intro n c hc
    simp only [toHexGo] at hc
    split at hc
    · rw [List.mem_singleton] at hc
      subst hc
      exact toHexChar_lowerHex n (by omega)
    · rw [List.mem_append] at hc
      rcases hc with hc | hc
      · exact ih (n / 16) c hc
      · rw [List.mem_singleton] at hc
        subst hc
        exact toHexChar_lowerHex _ (Nat.mod_lt _ (by omega))

/-- Numeric value of a lowercase hexadecimal digit character. -/
def hexVal (c : Char) : Nat :=
  if c ≤ '9' then c.toNat - 48 else c.toNat - 87

/-- Evaluation of a big-endian list of hexadecimal digit characters. -/
def ofHexList (l : List Char) : Nat :=
  l.foldl (fun a c => 16 * a + hexVal c) 0

/-- hexVal inverts toHexChar on single digits. -/
theorem hexVal_toHexChar (n : Nat) (h : n < 16) : hexVal (toHexChar n) = n := by
  interval_cases n <;> decide

/-- Appending one digit multiplies the value by 16 and adds the
digit. -/
theorem ofHexList_append (l : List Char) (c : Char) :
    ofHexList (l ++ [c]) = 16 * ofHexList l + hexVal c := by
  have h : ∀ (a : Nat), (l ++ [c]).foldl (fun a c => 16 * a + hexVal c) a
      = 16 * l.foldl (fun a c => 16 * a + hexVal c) a + hexVal c := by
    intro a
    rw [List.foldl_append]
    rfl
  exact h 0

/-- ofHexList inverts the fueled base-16 expansion when there is enough
fuel. -/
theorem ofHexList_toHexGo (fuel : Nat) :
    ∀ n, n < fuel → ofHexList (toHexGo fuel n) = n := by
  induction fuel with
  | zero => omega
  | succ fuel ih =>
    intro n hn
    simp only [toHexGo]
    split
    · simp only [ofHexList, List.foldl_cons, List.foldl_nil]
      rw [hexVal_toHexChar n (by omega)]
      omega
    · have hlt : n / 16 < n := Nat.div_lt_self (by omega) (by omega)
      rw [ofHexList_append, ih (n / 16) (by omega),
        hexVal_toHexChar _ (Nat.mod_lt _ (by omega))]
      omega

/-- ofHexList inverts toHex. -/
theorem ofHexList_toHex (n : Nat) : ofHexList (toHex n) = n :=
  ofHexList_toHexGo (n + 1) n (by omega)

/-- C9: Whenever RandomUtils.randomColor returns (within any amount of
fuel, for draws from the unit interval), the result has length exactly
7, consists of a hash sign followed by six lowercase hexadecimal
digits, and is never the string #ffffff, because the random draw is
floored against 16777215. -/
theorem randomColor_shape (draws : Nat → ℚ) (h : ∀ i, 0 ≤ draws i ∧ draws i < 1)
    (fuel k : Nat) (s : String) (hret : randomColorFuel draws fuel k = some s) :
    s.length = 7 ∧ s.data.head? = some '#' ∧
      (∀ c ∈ s.data.tail, isLowerHexDigit c = true) ∧ s ≠ "#ffffff" := by
  induction fuel generalizing k with
  | zero => simp [randomColorFuel] at hret
  | succ fuel ih =>
    simp only [randomColorFuel] at hret
    split at hret
    · rename_i hlen
      obtain rfl : "#" ++ String.mk (toHex (Int.toNat ⌊draws k * 16777215⌋)) = s :=
        Option.some_injective _ hret
      set v : Nat := Int.toNat ⌊draws k * 16777215⌋ with hv
      have hdata : ("#" ++ String.mk (toHex v)).data = '#' :: toHex v := by
        rw [String.data_append]
        rfl
      refine ⟨hlen, ?_, ?_, ?_⟩
      · rw [hdata]
        rfl
      · rw [hdata]
        intro c hc
        exact toHexGo_chars (v + 1) v c hc
      · intro heq
        have hchars : toHex v = ['f', 'f', 'f', 'f', 'f', 'f'] := by
          have : ('#' :: toHex v) = "#ffffff".data := by
            rw [← hdata, heq]
          simpa using this
        have hvv : v = 16777215 := by
          have := ofHexList_toHex v
          rw [hchars] at this
          simpa [ofHexList, hexVal] using this.symm
        have hfl : ⌊draws k * 16777215⌋ < 16777215 := by
          apply Int.floor_lt.mpr
          push_cast
          nlinarith [(h k).1, (h k).2]
        omega
    · exact ih (k + 1) hret

/-- C9 witness: a single draw of 1/2 yields the color string #7fffff,
which has the stated shape and is not #ffffff. -/
theorem randomColor_shape_witness :
    "#7fffff".length = 7 ∧ "#7fffff".data.head? = some '#' ∧
      (∀ c ∈ "#7fffff".data.tail, isLowerHexDigit c = true) ∧ "#7fffff" ≠ "#ffffff" :=
  randomColor_shape (fun _ => 1/2)
    (fun _ => (by decide : (0 : ℚ) ≤ 1/2 ∧ (1/2 : ℚ) < 1)) 1 0 "#7fffff" (by decide)

/-- C3: ValidationUtils.urlIsImage never propagates an error: a
rejected HEAD request or a response without a usable content-type gives
false, and the result is true exactly when the request succeeds with a
content-type starting with image/. -/
theorem urlIsImage_spec (outcome : Except Unit (Option String)) :
    urlIsImage outcome = true ↔
      ∃ ct, outcome = .ok (some ct) ∧ ct.startsWith "image/" = true := by
  cases outcome with
  | error e => simp [urlIsImage]
  | ok o =>
    cases o with
    | none => simp [urlIsImage]
    | some ct => simp [urlIsImage]

/-- A case-insensitive hexadecimal digit as worded by the claim:
a decimal digit or a letter between A and F in either case. -/
def IsHexDigitSpec (c : Char) : Prop :=
  ('0' ≤ c ∧ c ≤ '9') ∨ ('A' ≤ c ∧ c ≤ 'F') ∨ ('a' ≤ c ∧ c ≤ 'f')

/-- The hex color shape as worded by the claim: an optional leading
hash sign followed by exactly six case-insensitive hexadecimal
digits. -/
def IsHexColorSpec (s : String) : Prop :=
  (∃ t, s.data = '#' :: t ∧ t.length = 6 ∧ ∀ c ∈ t, IsHexDigitSpec c) ∨
    (s.data.length = 6 ∧ ∀ c ∈ s.data, IsHexDigitSpec c)

/-- The Boolean character class agrees with the spec wording. -/
theorem isHexDigitCI_iff (c : Char) : isHexDigitCI c = true ↔ IsHexDigitSpec c := by
  simp [isHexDigitCI, IsHexDigitSpec, Bool.or_eq_true, Bool.and_eq_true,
    decide_eq_true_eq, or_assoc]

/-- The core Boolean recognizer agrees with length six plus the digit
class. -/
theorem hexColorCore_iff (l : List Char) :
    hexColorCore l = true ↔ (l.length = 6 ∧ ∀ c ∈ l, IsHexDigitSpec c) := by
  simp only [hexColorCore, Bool.and_eq_true, beq_iff_eq, List.all_eq_true]
  constructor
  · rintro ⟨h1, h2⟩
    exact ⟨h1, fun c hc => (isHexDigitCI_iff c).mp (h2 c hc)⟩
  · rintro ⟨h1, h2⟩
    exact ⟨h1, fun c hc => (isHexDigitCI_iff c).mpr (h2 c hc)⟩

/-- The hash sign is not a hexadecimal digit, so the backtracking
alternative of the pattern never accepts a string that still starts
with the hash. -/
theorem hexColorCore_hash (t : List Char) : hexColorCore ('#' :: t) = false := by
  rw [Bool.eq_false_iff]
  intro hcon
  obtain ⟨-, hall⟩ := (hexColorCore_iff _).mp hcon
  have := hall '#' (List.mem_cons_self '#' t)
  rcases this with ⟨h, _⟩ | ⟨h, _⟩ | ⟨h, _⟩ <;> exact absurd h (by decide)

/-- C6: ValidationUtils.stringIsHexColor returns true exactly when the
string consists of an optional leading hash sign followed by exactly
six case-insensitive hexadecimal digits. -/
theorem stringIsHexColor_spec (s : String) :
    stringIsHexColor s = true ↔ IsHexColorSpec s := by
  unfold stringIsHexColor IsHexColorSpec
  cases hd : s.data
  case nil => simp [hexColorCore_iff]
  case cons c t =>
  split
  case h_1 t' heq =>
    obtain ⟨rfl, rfl⟩ : c = '#' ∧ t = t' := by
      have := List.cons.injEq c t '#' t' |>.mp heq
      exact ⟨this.1, this.2⟩
    rw [hexColorCore_hash, Bool.or_false, hexColorCore_iff]
    constructor
    · rintro ⟨h1, h2⟩
      exact Or.inl ⟨t, rfl, h1, h2⟩
    · rintro (⟨u, hu, h1, h2⟩ | ⟨h1, h2⟩)
      · obtain rfl : t = u := (List.cons.injEq '#' t '#' u |>.mp hu).2
        exact ⟨h1, h2⟩
      · exfalso
        have := h2 '#' (List.mem_cons_self '#' t)
        rcases this with ⟨h, _⟩ | ⟨h, _⟩ | ⟨h, _⟩ <;> exact absurd h (by decide)
  case h_2 hne =>
    rw [hexColorCore_iff]
    constructor
    · rintro ⟨h1, h2⟩
      exact Or.inr ⟨h1, h2⟩
    · rintro (⟨u, hu, h1, h2⟩ | ⟨h1, h2⟩)
      · exact absurd hu (hne u)
      · exact ⟨h1, h2⟩

/-- C4: ValidationUtils.resolveUser produces an empty result (none,
i.e. undefined) on every failed lookup: an empty query; or a query
whose mention fetch, if any, was rejected, with no single exact cache
hit and no cache entry satisfying the inclusive search (or an exact
match requested).  The embedding is a total function into Option, so
rejections of the underlying fetch are caught and never propagate. -/
theorem resolveUser_none_on_failure (st : ClientState) (query : String) (exact : Bool)
    (h : query = "" ∨
      ((extractMention query.data = none ∨
          ∃ id, extractMention query.data = some id ∧ st.fetch (String.mk id) = none) ∧
        (st.cache.filter (fun u => u.username == query)).length ≠ 1 ∧
        (exact = true ∨ st.cache.find? (fun x =>
          x.username == query ||
            jsIncludes (jsToLower query.data) (jsToLower x.username.data)) = none))) :
    resolveUser st query exact = none := by
  rcases h with hq | ⟨hm, hfilter, hfind⟩
  · simp [resolveUser, hq]
  · have hcs : cacheSearch st query exact = none := by
      unfold cacheSearch
      rw [if_neg hfilter]
      rcases hfind with hx | hx
      · subst hx
        simp
      · cases exact with
        | false => simpa using hx
        | true => simp
    unfold resolveUser
    by_cases hq : query = ""
    · simp [hq]
    · rw [if_neg hq]
      rcases hm with hm | ⟨id, hm, hfetch⟩
      · simp [hm, hcs]
      · simp [hm, hfetch, hcs]

/-- C4 witness: with an always-rejecting fetch, an empty cache and the
query x, the resolution returns none. -/
theorem resolveUser_none_on_failure_witness :
    resolveUser ⟨fun _ => none, []⟩ "x" false = none :=
  resolveUser_none_on_failure ⟨fun _ => none, []⟩ "x" false
    (Or.inr ⟨Or.inl (by decide), by decide, Or.inr (by decide)⟩)

/-- Association-list lookup succeeds on every key present in the key
column and returns an entry of the list for that key. -/
theorem lookup_of_key_mem (l : List (String × String)) (p : String)
    (hp : p ∈ l.map Prod.fst) :
    ∃ v, l.lookup p = some v ∧ (p, v) ∈ l := by
  induction l with
  | nil => simp at hp
  | cons a t ih =>
    by_cases he : p = a.1
    · refine ⟨a.2, ?_, ?_⟩
      · simp [List.lookup, he]
      · rw [he, Prod.mk.eta]
        exact List.mem_cons_self a t
    · rw [List.map_cons, List.mem_cons] at hp
      rcases hp with hp | hp
      · exact absurd hp he
      · obtain ⟨v, hv, hmem⟩ := ih hp
        refine ⟨v, ?_, List.mem_cons_of_mem a hmem⟩
        have hbe : (p == a.1) = false := beq_eq_false_iff_ne.mpr he
        simpa [List.lookup, hbe] using hv

/-- C2 counterexample: the permission name UseExternalApps (a permission
of the client library absent from the static table) yields undefined,
not a defined string, so the result is not always a defined string equal
to a table entry. -/
theorem getPermissionName_missing_key : getPermissionName "UseExternalApps" = none := by
  decide

/-- C2 amended: the key column of the static table has no duplicates,
and for every permission name that occurs as a key of the table,
getPermissionName returns a defined string, namely the table entry for
that name; names outside the table yield undefined. -/
theorem getPermissionName_defined_on_table (p : String)
    (hp : p ∈ permissionLocalizations.map Prod.fst) :
    (permissionLocalizations.map Prod.fst).Nodup ∧
      ∃ v, getPermissionName p = some v ∧ (p, v) ∈ permissionLocalizations :=
  ⟨by decide, lookup_of_key_mem permissionLocalizations p hp⟩

/-- C2 witness: the permission name Administrator is a key of the table
and resolves to its table entry. -/
theorem getPermissionName_defined_on_table_witness :
    (permissionLocalizations.map Prod.fst).Nodup ∧
      ∃ v, getPermissionName "Administrator" = some v ∧
        ("Administrator", v) ∈ permissionLocalizations :=
  getPermissionName_defined_on_table "Administrator" (by decide)

/-- C7 counterexample: with argument 2 equal to commands and argument 3
equal to toString, which is not one of the four actions, the script
does not run the bot initiation sequence: the property access on the
object literal finds the inherited Object.prototype member, the
dispatch condition is truthy, that member is invoked and the process
exits. -/
theorem bootDispatch_inherited_counterexample :
    "toString" ∉ ownActionKeys ∧
      bootDispatch (some "commands") (some "toString") none =
        .dispatch [.callInherited "toString", .exitZero] ∧
      bootDispatch (some "commands") (some "toString") none ≠ .initiate := by
  decide

/-- C7 amended: when argument 2 is commands and argument 3 is one of
view, unregister, delete or register, the script runs exactly the
corresponding command-manager action (register first loading the
commands, delete receiving argument 4) and then exits; when argument 2
is commands and argument 3 names any of the twelve inherited
Object.prototype members, the script takes the dispatch branch instead
of initiating: it invokes the inherited member and exits, except that
the call throws a TypeError for the two define-accessor functions
(their undefined getter or setter argument is not callable) and for
the non-callable prototype object yielded by the accessor member; in
every other case it runs the bot initiation sequence. -/
theorem bootDispatch_characterization (a2 a3 a4 : Option String) (k : String) :
    (bootDispatch (some "commands") (some "view") a4 =
      .dispatch [.viewCmds, .exitZero]) ∧
    (bootDispatch (some "commands") (some "unregister") a4 =
      .dispatch [.unregisterCmds, .exitZero]) ∧
    (bootDispatch (some "commands") (some "delete") a4 =
      .dispatch [.deleteCmd a4, .exitZero]) ∧
    (bootDispatch (some "commands") (some "register") a4 =
      .dispatch [.loadCommands true, .registerCmds, .exitZero]) ∧
    (k ∈ objectProtoKeys → k ≠ "__proto__" →
        k ≠ "__defineGetter__" → k ≠ "__defineSetter__" →
      bootDispatch (some "commands") (some k) a4 =
        .dispatch [.callInherited k, .exitZero]) ∧
    (k = "__defineGetter__" ∨ k = "__defineSetter__" →
      bootDispatch (some "commands") (some k) a4 =
        .dispatch [.callInheritedThrows k]) ∧
    (bootDispatch (some "commands") (some "__proto__") a4 =
      .dispatch [.throwNotAFunction]) ∧
    (a2 ≠ some "commands" → bootDispatch a2 a3 a4 = .initiate) ∧
    (a3.getD "undefined" ∉ ownActionKeys → a3.getD "undefined" ∉ objectProtoKeys →
      bootDispatch a2 a3 a4 = .initiate) := by
  refine ⟨?_, ?_, ?_, ?_, ?_, ?_, ?_, ?_, ?_⟩
  · simp [bootDispatch, commandActionEffects, ownActionKeys, objectProtoKeys]
  · simp [bootDispatch, commandActionEffects, ownActionKeys, objectProtoKeys]
  · simp [bootDispatch, commandActionEffects, ownActionKeys, objectProtoKeys]
  · simp [bootDispatch, commandActionEffects, ownActionKeys, objectProtoKeys]
  · intro hk hp hg hs
    fin_cases hk <;> first
      | exact absurd rfl hp
      | exact absurd rfl hg
      | exact absurd rfl hs
      | simp [bootDispatch, commandActionEffects, ownActionKeys, objectProtoKeys]
  · rintro (rfl | rfl) <;>
      simp [bootDispatch, commandActionEffects, ownActionKeys, objectProtoKeys]
  · simp [bootDispatch, commandActionEffects, ownActionKeys, objectProtoKeys]
  · intro h2
    unfold bootDispatch
    rw [if_neg]
    rintro ⟨hc, -⟩
    exact h2 hc
  · intro h1 h2
    unfold bootDispatch
    rw [if_neg]
    rintro ⟨-, hmem | hmem⟩
    · exact h1 hmem
    · exact h2 hmem

/-- C7 amended witness: the inherited member toLocaleString dispatches
the inherited call and exits, the inherited define-getter member
dispatches the throwing call, and absent arguments initiate the
bot. -/
theorem bootDispatch_characterization_witness :
    bootDispatch (some "commands") (some "toLocaleString") none =
        .dispatch [.callInherited "toLocaleString", .exitZero] ∧
      bootDispatch (some "commands") (some "__defineGetter__") none =
        .dispatch [.callInheritedThrows "__defineGetter__"] ∧
      bootDispatch none none none = .initiate := by
  obtain ⟨-, -, -, -, h5, -, -, h8, -⟩ :=
    bootDispatch_characterization none none none "toLocaleString"
  obtain ⟨-, -, -, -, -, h6, -, -, -⟩ :=
    bootDispatch_characterization none none none "__defineGetter__"
  exact ⟨h5 (by decide) (by decide) (by decide) (by decide),
    h6 (Or.inl rfl), h8 (by decide)⟩
